import Mathlib

/-!
Verification development for the tactical-combat core of the repository:
a shallow embedding, in Lean, of the deterministic RNG, the combat logger,
attack resolution, the combat engine's action resolver and scheduler, and
the A* pathfinding module, together with theorems settling the spec's
claims about them.

JS semantics conventions used throughout the embedding:
* JS `%` on integers truncates toward zero: embedded as `Int.tmod`.
* `Math.floor(a / b)` for integers `a`, `b > 0` coincides with Lean's
  `Int` division (which rounds toward negative infinity for positive
  divisors), and `Math.floor` on exact rationals is `Int.floor`.
* Number arithmetic is embedded exactly (`ℤ`/`ℚ`); all quantities the
  claims touch stay far below 2^53, where JS doubles are exact.
* JS objects are embedded as structures, in-place mutation as explicit
  state passing; `Array.prototype.sort` (stable since ES2019) as the
  stable `List.mergeSort`.
-/

set_option maxRecDepth 8000

namespace DnD

/-! ## Deterministic randomness — `SeededRNG` (core/rng module)

The generator is a Park–Miller LCG: `seed = (seed * 16807) % 2147483647`,
`next() = (seed - 1) / 2147483646`.  The mutable `this.seed` is embedded
as an explicit `ℤ` state threaded through every operation. -/

/-- The LCG modulus `2147483647 = 2^31 - 1`. -/
def lcgM : ℤ := 2147483647

/-- Seed update of `next()`: `this.seed = (this.seed * 16807) % 2147483647`
(JS `%`, i.e. truncated remainder). -/
def nextSeed (s : ℤ) : ℤ := Int.tmod (s * 16807) lcgM

/-- Return value of `next()`: `(this.seed - 1) / 2147483646`, computed on
the already-updated seed, as an exact rational. -/
def nextVal (s : ℤ) : ℚ := ((nextSeed s - 1 : ℤ) : ℚ) / 2147483646

/-- Source `next()`: updated seed together with the returned float. -/
def next (s : ℤ) : ℤ × ℚ := (nextSeed s, nextVal s)

/-- Source `nextInt(min, max) = Math.floor(this.next() * (max - min + 1)) + min`. -/
def nextInt (s lo hi : ℤ) : ℤ × ℤ :=
  let p := next s
  (p.1, ⌊p.2 * ((hi - lo + 1 : ℤ) : ℚ)⌋ + lo)

/-- Source `rollDie(sides) = this.nextInt(1, sides)`. -/
def rollDie (s sides : ℤ) : ℤ × ℤ := nextInt s 1 sides

/-- Source `rollDice(count, sides, modifier)`: starts from `modifier` and adds
`count` single die rolls, threading the seed. -/
def rollDice (s : ℤ) (count : ℕ) (sides modifier : ℤ) : ℤ × ℤ :=
  (List.range count).foldl
    (fun acc _ => let r := rollDie acc.1 sides; (r.1, acc.2 + r.2))
    (s, modifier)

/-- Wrap to a 32-bit signed integer, JS `| 0` / `& -1` style (the effect of
`hash & hash` in `hashString`). -/
def toInt32 (n : ℤ) : ℤ := (n + 2 ^ 31) % 2 ^ 32 - 2 ^ 31

/-- One step of `hashString`: `hash = ((hash << 5) - hash) + charCode`
followed by `hash = hash & hash`.  `<<` itself wraps to 32 bits in JS. -/
def hashStep (h : ℤ) (c : ℕ) : ℤ := toInt32 (toInt32 (h * 32) - h + (c : ℤ))

/-- Source `hashString`: rolling polynomial hash over the char codes, absolute
value taken at the end. -/
def hashString (cs : List ℕ) : ℤ := |cs.foldl hashStep 0|

/-- A seed argument to the constructor or to `setSeed`: either a string
(as its list of UTF-16 char codes) or a number.  The seedless constructor
draws its seed from `Math.random()` and is outside the claims' scope. -/
inductive SeedInput where
  | str (chars : List ℕ)
  | int (n : ℤ)
deriving DecidableEq

/-- Seed installed by the constructor or `setSeed`: strings are hashed,
numbers are taken as-is. -/
def mkSeed : SeedInput → ℤ
  | .str cs => hashString cs
  | .int n => n

/-- Swap entries `i` and `j` of a list (the destructuring swap in
`shuffle`; both indices are in range whenever the generator state is a
genuine reachable state). -/
def swapJS (l : List ℤ) (i j : ℕ) : List ℤ :=
  let vi := l.getD i 0
  let vj := l.getD j 0
  (l.set i vj).set j vi

/-- The Fisher–Yates loop of `shuffle`: `for (i = len-1; i > 0; i--)
{ j = nextInt(0, i); swap(i, j) }`, threading the seed. -/
def shuffleAux : ℤ → List ℤ → ℕ → ℤ × List ℤ
  | s, l, 0 => (s, l)
  | s, l, i + 1 =>
    let r := nextInt s 0 ((i : ℤ) + 1)
    shuffleAux r.1 (swapJS l (i + 1) r.2.toNat) i

/-- Source `shuffle(array)`: copies the input and runs Fisher–Yates downward;
the original list is untouched (lists are immutable here by construction,
so the embedding returns the new list alongside the new seed). -/
def shuffle (s : ℤ) (l : List ℤ) : ℤ × List ℤ := shuffleAux s l (l.length - 1)

/-- One observable generator call of claim C1. -/
inductive RNGCall where
  | next
  | rollDie (sides : ℤ)
  | shuffle (xs : List ℤ)
deriving DecidableEq

/-- The observable result of a generator call. -/
inductive RNGOut where
  | flt (q : ℚ)
  | int (n : ℤ)
  | list (xs : List ℤ)
deriving DecidableEq

/-- Run one call against a generator state. -/
def runCall (s : ℤ) : RNGCall → ℤ × RNGOut
  | .next => let r := next s; (r.1, .flt r.2)
  | .rollDie sides => let r := rollDie s sides; (r.1, .int r.2)
  | .shuffle xs => let r := shuffle s xs; (r.1, .list r.2)

/-- Trace of results over a sequence of calls. -/
def runCalls (s : ℤ) : List RNGCall → List RNGOut
  | [] => []
  | c :: cs => let r := runCall s c; r.2 :: runCalls r.1 cs

/-- Integer form of `nextInt`: the float multiply-and-floor on exact
rationals collapses to integer division, which makes concrete runs of the
generator computable by `decide`. -/
theorem nextInt_eq (s lo hi : ℤ) :
    nextInt s lo hi =
      (nextSeed s, (nextSeed s - 1) * (hi - lo + 1) / 2147483646 + lo) := by
  unfold nextInt next nextVal
  have h : (((nextSeed s - 1 : ℤ) : ℚ) / 2147483646) * ((hi - lo + 1 : ℤ) : ℚ) =
      (((nextSeed s - 1) * (hi - lo + 1) : ℤ) : ℚ) / ((2147483646 : ℕ) : ℚ) := by
    push_cast
    ring
  simp only [h, Rat.floor_intCast_div_natCast]
  norm_num

/-- Integer form of `rollDie`. -/
theorem rollDie_eq (s sides : ℤ) :
    rollDie s sides = (nextSeed s, (nextSeed s - 1) * sides / 2147483646 + 1) := by
  unfold rollDie
  rw [nextInt_eq]
  norm_num

/-- C1: two `SeededRNG` generators constructed with the same seed
(integer or string) produce identical result sequences over any identical
sequence of `next()`, `rollDie` and `shuffle` calls. -/
theorem seededRNG_deterministic (sd : SeedInput) (calls : List RNGCall)
    (g₁ g₂ : ℤ) (h₁ : g₁ = mkSeed sd) (h₂ : g₂ = mkSeed sd) :
    runCalls g₁ calls = runCalls g₂ calls := by
  subst h₁; subst h₂; rfl

/-- Witness for C1 at the concrete seed 42 and a concrete call sequence. -/
theorem seededRNG_deterministic_witness :
    runCalls (mkSeed (.int 42)) [.next, .rollDie 6, .shuffle [1, 2, 3]] =
      runCalls (mkSeed (.int 42)) [.next, .rollDie 6, .shuffle [1, 2, 3]] :=
  seededRNG_deterministic (.int 42) [.next, .rollDie 6, .shuffle [1, 2, 3]] _ _ rfl rfl

/-- Integer-only mirror of `nextInt`, used to evaluate concrete runs by
`decide` (the kernel cannot reduce `ℚ` normalisation). -/
def nextIntI (s lo hi : ℤ) : ℤ × ℤ :=
  (nextSeed s, (nextSeed s - 1) * (hi - lo + 1) / 2147483646 + lo)

/-- Integer-only mirror of `rollDie`. -/
def rollDieI (s sides : ℤ) : ℤ × ℤ :=
  (nextSeed s, (nextSeed s - 1) * sides / 2147483646 + 1)

theorem nextInt_fun : nextInt = nextIntI :=
  funext fun s => funext fun lo => funext fun hi => nextInt_eq s lo hi

theorem rollDie_fun : rollDie = rollDieI :=
  funext fun s => funext fun sides => rollDie_eq s sides

/-- The modulus `2^31 - 1` is prime (Lucas–Lehmer). -/
theorem lcgM_natAbs_prime : Nat.Prime 2147483647 := by
  have h : (2147483647 : ℕ) = mersenne 31 := by norm_num [mersenne]
  rw [h]
  exact lucas_lehmer_sufficiency 31 (by norm_num) (by norm_num)

/-- C8 counterexample: the integer seed `0` is installable by the
constructor and by `setSeed`, and on it `next()` returns
`-1/2147483646`, which is not in `[0, 1)`.  (Seed `0` is moreover a fixed
point: every later `next()` returns the same negative value.) -/
theorem next_at_seed_zero_negative :
    mkSeed (.int 0) = 0 ∧ (next 0).1 = 0 ∧ (next 0).2 = -(1 / 2147483646 : ℚ) ∧
      ¬(0 ≤ (next 0).2 ∧ (next 0).2 < 1) := by
  have hseed : nextSeed 0 = 0 := by unfold nextSeed lcgM; decide
  have hval : nextVal 0 = -(1 / 2147483646 : ℚ) := by
    rw [nextVal, hseed]
    norm_num
  refine ⟨rfl, hseed, hval, ?_⟩
  rw [show (next 0).2 = nextVal 0 from rfl, hval]
  norm_num

/-- C8 amended: for every generator state whose seed lies in
`[1, 2^31 - 2]`, `next()` returns a value in `[0, 1)`, and the updated
seed is again in `[1, 2^31 - 2]` (so every subsequent `next()` stays in
`[0, 1)` as well).  Seed `0` — reachable via the constructor, `setSeed`,
or a string hashing to `0` — escapes this range and yields the negative
value exhibited in the counterexample. -/
theorem next_in_unit_interval (s : ℤ) (h1 : 1 ≤ s) (h2 : s < lcgM) :
    1 ≤ (next s).1 ∧ (next s).1 < lcgM ∧ 0 ≤ (next s).2 ∧ (next s).2 < 1 := by
  have hMpos : (0 : ℤ) < lcgM := by norm_num [lcgM]
  have hprod : (0 : ℤ) ≤ s * 16807 := by positivity
  have htmod : nextSeed s = s * 16807 % lcgM := by
    rw [nextSeed, Int.tmod_eq_emod hprod (le_of_lt hMpos)]
  have hlt : nextSeed s < lcgM := by
    rw [htmod]; exact Int.emod_lt_of_pos _ hMpos
  have hnonneg : 0 ≤ nextSeed s := by
    rw [htmod]; exact Int.emod_nonneg _ (ne_of_gt hMpos)
  have hMprime : Prime (lcgM : ℤ) := by
    rw [show lcgM = ((2147483647 : ℕ) : ℤ) by norm_num [lcgM]]
    exact Int.prime_iff_natAbs_prime.mpr (by simpa using lcgM_natAbs_prime)
  have hne : nextSeed s ≠ 0 := by
    intro h0
    have hdvd : lcgM ∣ s * 16807 := by
      refine Int.dvd_of_emod_eq_zero ?_
      rw [← htmod]; exact h0
    rcases hMprime.2.2 s 16807 hdvd with hs | h16
    · exact absurd (Int.le_of_dvd (lt_of_lt_of_le zero_lt_one h1) hs) (not_le.mpr h2)
    · have : lcgM ≤ 16807 := Int.le_of_dvd (by norm_num) h16
      norm_num [lcgM] at this
  have hge1 : 1 ≤ nextSeed s := lt_of_le_of_ne hnonneg (Ne.symm hne)
  refine ⟨hge1, hlt, ?_, ?_⟩
  · show (0 : ℚ) ≤ nextVal s
    rw [nextVal]
    apply div_nonneg _ (by norm_num)
    have : (0 : ℤ) ≤ nextSeed s - 1 := by omega
    exact_mod_cast this
  · show nextVal s < 1
    rw [nextVal, div_lt_one (by norm_num)]
    have : nextSeed s - 1 ≤ 2147483645 := by
      have := hlt
      simp only [lcgM] at this
      omega
    calc ((nextSeed s - 1 : ℤ) : ℚ) ≤ ((2147483645 : ℤ) : ℚ) := by exact_mod_cast this
      _ < 2147483646 := by norm_num

/-- Witness for the amended C8 at the concrete seed `1`. -/
theorem next_in_unit_interval_witness :
    (1 : ℤ) ≤ 1 ∧ (1 : ℤ) < lcgM ∧
      (1 ≤ (next 1).1 ∧ (next 1).1 < lcgM ∧ 0 ≤ (next 1).2 ∧ (next 1).2 < 1) :=
  ⟨le_refl 1, by norm_num [lcgM], next_in_unit_interval 1 (le_refl 1) (by norm_num [lcgM])⟩

/-! ## Combat log retention — `CombatLogger.addEntry`

`addEntry` pushes the new entry and, when the log length exceeds 100,
keeps only the last 50 entries (`this.log = this.log.slice(-50)`).  The
entry payload (id, timestamp, message, details) is irrelevant to the
retention behaviour, so the definition is generic in the entry type. -/

/-- Source `addEntry`: push, then trim to the most recent 50 once the length
exceeds 100.  `slice(-50)` keeps the last 50 elements, i.e. drops
`length - 50` from the front. -/
def addEntry {α : Type} (log : List α) (e : α) : List α :=
  if 100 < (log ++ [e]).length then (log ++ [e]).drop ((log ++ [e]).length - 50)
  else log ++ [e]

/-- As long as the log stays within 100 entries, `addEntry` is a plain
append. -/
theorem foldl_addEntry_no_trim {α : Type} (es : List α) :
    ∀ log : List α, log.length + es.length ≤ 100 →
      List.foldl addEntry log es = log ++ es := by
  induction es with
  | nil => intro log _; simp
  | cons e es ih =>
    intro log h
    simp only [List.length_cons] at h
    have hlen : ¬100 < (log ++ [e]).length := by
      simp only [List.length_append, List.length_cons, List.length_nil]
      omega
    have hstep : addEntry log e = log ++ [e] := by
      unfold addEntry
      exact if_neg hlen
    simp only [List.foldl_cons, hstep]
    rw [ih (log ++ [e]) (by simp; omega)]
    simp

/-- C9: starting from an empty log, adding 101 entries one at a time
leaves exactly the most recent 50 entries in their original order
(`es.drop 51`); and in general, whenever an addition pushes the log past
100 entries, the log is trimmed to its most recent 50. -/
theorem combatLog_retention {α : Type} :
    (∀ es : List α, es.length = 101 →
      List.foldl addEntry ([] : List α) es = es.drop 51 ∧
        (es.drop 51).length = 50) ∧
    (∀ (log : List α) (e : α), 100 < (log ++ [e]).length →
      addEntry log e = (log ++ [e]).drop ((log ++ [e]).length - 50)) := by
  constructor
  · intro es h
    have hsplit : es.take 100 ++ es.drop 100 = es := List.take_append_drop 100 es
    have htake : (es.take 100).length = 100 := by rw [List.length_take]; omega
    have hdrop1 : (es.drop 100).length = 1 := by rw [List.length_drop]; omega
    obtain ⟨x, hx⟩ : ∃ x, es.drop 100 = [x] := List.length_eq_one.mp hdrop1
    constructor
    · have hinner : List.foldl addEntry ([] : List α) (es.take 100) = es.take 100 := by
        simpa using foldl_addEntry_no_trim (es.take 100) [] (by simp [htake])
      conv_lhs => rw [← hsplit]
      rw [List.foldl_append, hinner, hx]
      simp only [List.foldl_cons, List.foldl_nil]
      have h101 : (es.take 100 ++ [x]).length = 101 := by
        simp [htake]
      have hes : es.take 100 ++ [x] = es := by rw [← hx, hsplit]
      unfold addEntry
      rw [if_pos (by omega), h101, hes]
    · rw [List.length_drop]; omega
  · intro log e h
    unfold addEntry
    exact if_pos h

/-- Witness for C9: the 101 entries `0, …, 100` leave entries `51, …, 100`,
and a 100-entry log plus one more is trimmed to the most recent 50. -/
theorem combatLog_retention_witness :
    ((List.range 101).length = 101 ∧
      List.foldl addEntry ([] : List ℕ) (List.range 101) = (List.range 101).drop 51 ∧
      ((List.range 101).drop 51).length = 50) ∧
    (100 < (List.range 100 ++ [7]).length ∧
      addEntry (List.range 100) 7 =
        (List.range 100 ++ [7]).drop ((List.range 100 ++ [7]).length - 50)) :=
  ⟨⟨by simp, ((combatLog_retention (α := ℕ)).1 (List.range 101) (by simp)).1,
      ((combatLog_retention (α := ℕ)).1 (List.range 101) (by simp)).2⟩,
    ⟨by simp, (combatLog_retention (α := ℕ)).2 (List.range 100) 7 (by simp)⟩⟩

/-! ## Ability scores and derived bonuses (core/stats module) -/

/-- Source `getModifier(score) = Math.floor((score - 10) / 2)`; Lean's `Int`
division rounds toward negative infinity for the positive divisor 2,
exactly like `Math.floor`. -/
def getModifier (score : ℤ) : ℤ := (score - 10) / 2

/-- Source `getProficiencyBonus(level) = Math.ceil(level / 4) + 1`;
`⌈l/4⌉ = -⌊-l/4⌋`. -/
def getProficiencyBonus (level : ℤ) : ℤ := -(-level / 4) + 1

/-- The six ability scores. -/
structure Stats where
  strength : ℤ
  dexterity : ℤ
  constitution : ℤ
  intelligence : ℤ
  wisdom : ℤ
  charisma : ℤ
deriving DecidableEq

/-! ## Weapons (data/weapons module)

Weapon damage dice are stored in the source as strings of the shape
`{count}d{sides}` with an optional signed modifier suffix, parsed by `SeededRNG.parseDiceString`
with the regex `(\d+)?d(\d+)([+\-]\d+)?` (count defaults to 1, modifier
to 0).  Every string in the weapon table is well-formed, so the embedding
stores the parsed triple directly: `'1d8' ↦ ⟨1, 8, 0⟩`. -/

structure DiceExpr where
  count : ℕ
  sides : ℤ
  modifier : ℤ
deriving DecidableEq

/-- Source `parseDiceString` on a well-formed dice string: roll the dice it
denotes (`rollDice(count, sides, modifier)`), threading the seed. -/
def parseDice (s : ℤ) (d : DiceExpr) : ℤ × ℤ := rollDice s d.count d.sides d.modifier

inductive WeaponCategory where
  | melee
  | ranged
deriving DecidableEq

inductive WeaponProperty where
  | light
  | finesse
  | versatile
  | twoHanded
  | heavy
  | reach
  | thrown
  | ammunition
deriving DecidableEq

/-- The parts of `WeaponData` the combat core reads: damage dice,
category and property list. -/
structure Weapon where
  id : String
  category : WeaponCategory
  properties : List WeaponProperty
  damageDice : DiceExpr
deriving DecidableEq

/-- Source `getWeaponById`: the `WEAPONS` table of data/weapons, keyed by id. -/
def getWeaponById : String → Option Weapon
  | "dagger" => some ⟨"dagger", .melee, [.light, .finesse, .thrown], ⟨1, 4, 0⟩⟩
  | "shortsword" => some ⟨"shortsword", .melee, [.light, .finesse], ⟨1, 6, 0⟩⟩
  | "longsword" => some ⟨"longsword", .melee, [.versatile], ⟨1, 8, 0⟩⟩
  | "greataxe" => some ⟨"greataxe", .melee, [.twoHanded, .heavy], ⟨1, 12, 0⟩⟩
  | "shortbow" => some ⟨"shortbow", .ranged, [.ammunition, .twoHanded], ⟨1, 6, 0⟩⟩
  | "longbow" => some ⟨"longbow", .ranged, [.ammunition, .heavy, .twoHanded], ⟨1, 8, 0⟩⟩
  | "handaxe" => some ⟨"handaxe", .melee, [.light, .thrown], ⟨1, 6, 0⟩⟩
  | "quarterstaff" => some ⟨"quarterstaff", .melee, [.versatile], ⟨1, 6, 0⟩⟩
  | "crossbow_light" => some ⟨"crossbow_light", .ranged, [.ammunition, .light], ⟨1, 8, 0⟩⟩
  | "warhammer" => some ⟨"warhammer", .melee, [.versatile], ⟨1, 8, 0⟩⟩
  | _ => none

/-! ## Characters (core/types `Character`, combat-relevant fields) -/

structure Pool where
  current : ℤ
  maximum : ℤ
deriving DecidableEq

structure Health where
  current : ℤ
  maximum : ℤ
  temporary : ℤ
deriving DecidableEq

inductive CreatureType where
  | player
  | companion
  | enemy
deriving DecidableEq

structure Position where
  x : ℤ
  y : ℤ
deriving DecidableEq

/-- A status effect; only the fields the combat engine writes are kept
(the dodge effect carries an `ac` modifier of 2). -/
structure StatusEffect where
  id : String
  name : String
  duration : ℤ
  acMod : ℤ
deriving DecidableEq

/-- The fields of `Character` that the combat engine, logger, attack
resolution and pathfinding read or write.  `spellSlots` embeds the
`Record<number, {current, maximum}>` as an association list with unique
keys. -/
structure Character where
  id : String
  name : String
  level : ℤ
  stats : Stats
  health : Health
  armorClass : ℤ
  speed : ℤ
  spellSlots : List (ℤ × Pool)
  position : Position
  type : CreatureType
  statusEffects : List StatusEffect
  initiative : ℤ
  hasUsedAction : Bool
  hasUsedBonusAction : Bool
  hasUsedReaction : Bool
  movementUsed : ℤ
deriving DecidableEq

/-! ## Attack resolution — `rollAttack` (systems/combatLog module) -/

/-- Source `weaponId ? getWeaponById(weaponId) : null`: the empty string is
falsy in JS, so it also yields no weapon. -/
def jsWeaponArg : Option String → Option Weapon
  | none => none
  | some wid => if wid = "" then none else getWeaponById wid

/-- The damage dice used by `rollAttack`:
`weapon?.damage?.dice || '1d4'`. -/
def weaponDiceOf : Option Weapon → DiceExpr
  | some wp => wp.damageDice
  | none => ⟨1, 4, 0⟩

/-- Attack-bonus ability modifier: Strength by default, the larger of
Strength/Dexterity for finesse weapons, Dexterity for ranged weapons. -/
def attackAbilityBonus (attacker : Character) (w : Option Weapon) : ℤ :=
  match w with
  | some wp =>
    if wp.properties.contains .finesse then
      max (getModifier attacker.stats.strength) (getModifier attacker.stats.dexterity)
    else if wp.category = .ranged then
      getModifier attacker.stats.dexterity
    else
      getModifier attacker.stats.strength
  | none => getModifier attacker.stats.strength

/-- Damage ability modifier: Dexterity for ranged weapons, otherwise
Strength. -/
def damageAbilityMod (attacker : Character) (w : Option Weapon) : ℤ :=
  match w with
  | some wp =>
    if wp.category = .ranged then getModifier attacker.stats.dexterity
    else getModifier attacker.stats.strength
  | none => getModifier attacker.stats.strength

structure AttackResult where
  hit : Bool
  attackRoll : ℤ
  damage : ℤ
deriving DecidableEq

/-- Source `rollAttack(attacker, target, weaponId)`: d20 + ability + proficiency
versus the target's armor class; on a hit, weapon dice + ability
modifier, floored at 1, plus one extra weapon-dice roll on a natural 20.
The global RNG's seed is threaded explicitly. -/
def rollAttack (s : ℤ) (attacker target : Character) (weaponId : Option String) :
    AttackResult × ℤ :=
  let w := jsWeaponArg weaponId
  let attackBonus := attackAbilityBonus attacker w + getProficiencyBonus attacker.level
  let r20 := rollDie s 20
  let attackRoll := r20.2 + attackBonus
  if target.armorClass ≤ attackRoll then
    let r1 := parseDice r20.1 (weaponDiceOf w)
    let dmg := max 1 (r1.2 + damageAbilityMod attacker w)
    if r20.2 = 20 then
      let r2 := parseDice r1.1 (weaponDiceOf w)
      (⟨true, attackRoll, dmg + r2.2⟩, r2.1)
    else
      (⟨true, attackRoll, dmg⟩, r1.1)
  else
    (⟨false, attackRoll, 0⟩, r20.1)

/-- Hit test and attack roll of `rollAttack`: the attack hits exactly
when d20 + ability bonus + proficiency reaches the target's armor
class. -/
theorem rollAttack_hit_iff (s : ℤ) (A T : Character) (wid : Option String) :
    ((rollAttack s A T wid).1.hit = true ↔
      T.armorClass ≤ (rollDie s 20).2 +
        (attackAbilityBonus A (jsWeaponArg wid) + getProficiencyBonus A.level)) ∧
    (rollAttack s A T wid).1.attackRoll =
      (rollDie s 20).2 +
        (attackAbilityBonus A (jsWeaponArg wid) + getProficiencyBonus A.level) := by
  simp only [rollAttack]
  split_ifs with h1 h2 <;> simp [h1]

/-- Attacker of claim C3: Strength 16, level 1. -/
def strikerC3 : Character :=
  ⟨"striker", "Striker", 1, ⟨16, 10, 10, 10, 10, 10⟩, ⟨10, 10, 0⟩, 15, 30, [],
    ⟨0, 0⟩, .player, [], 0, false, false, false, 0⟩

/-- Target of claim C3: armor class 15. -/
def targetC3 : Character :=
  ⟨"dummy", "Dummy", 1, ⟨10, 10, 10, 10, 10, 10⟩, ⟨10, 10, 0⟩, 15, 30, [],
    ⟨1, 0⟩, .enemy, [], 0, false, false, false, 0⟩

/-- C3 amended: for Strength 16 (modifier +3) at level 1 the proficiency
bonus is `ceil(1/4) + 1 = 2`, so the attack bonus against armor class 15
is +5 with a non-finesse melee weapon (longsword): the attack hits
exactly when the d20 shows 10 or more.  In particular a roll of 11
(total 16) hits, a roll of 10 (total 15) also hits, and a roll of 9
(total 14) misses — the spec's claimed totals are off by one because it
takes the level-1 proficiency bonus to be +1. -/
theorem attack_bonus_five_hit_threshold (s : ℤ) :
    ((rollAttack s strikerC3 targetC3 (some "longsword")).1.hit = true ↔
      10 ≤ (rollDie s 20).2) ∧
    (rollAttack s strikerC3 targetC3 (some "longsword")).1.attackRoll =
      (rollDie s 20).2 + 5 := by
  have h := rollAttack_hit_iff s strikerC3 targetC3 (some "longsword")
  have hb : attackAbilityBonus strikerC3 (jsWeaponArg (some "longsword")) +
      getProficiencyBonus strikerC3.level = 5 := by decide
  have hac : targetC3.armorClass = 15 := rfl
  rw [hb, hac] at h
  refine ⟨?_, h.2⟩
  rw [h.1]
  omega

/-- C3 counterexample: at the reachable generator state 1933904666 the
d20 shows exactly 10, and the level-1, Strength-16 attack against armor
class 15 hits with total 15 — the claim asserts a roll of 10 totals 14
and misses. -/
theorem attack_roll_ten_hits_cx :
    (rollDie (1933904666 : ℤ) 20).2 = 10 ∧
    (rollAttack (1933904666 : ℤ) strikerC3 targetC3 (some "longsword")).1.hit = true ∧
    (rollAttack (1933904666 : ℤ) strikerC3 targetC3 (some "longsword")).1.attackRoll = 15 := by
  refine ⟨?_, ?_, ?_⟩ <;>
    simp only [rollAttack, parseDice, rollDice, rollDie_fun, nextInt_fun] <;>
    decide

/-- C4 amended: a natural-20 hit deals
`max 1 (w₁ + abilityMod) + w₂`, where `w₁` and `w₂` are the two
independent weapon-dice rolls.  The ability modifier is added exactly
once, and whenever `1 ≤ w₁ + abilityMod` this equals the claim's
`w₁ + w₂ + abilityMod`; but the floor at 1 is applied before the
critical dice are added, so the claim's formula fails when the first
roll plus the modifier is below 1. -/
theorem crit_damage_two_rolls_one_modifier (s : ℤ) (A T : Character)
    (wid : Option String)
    (h20 : (rollDie s 20).2 = 20)
    (hhit : (rollAttack s A T wid).1.hit = true) :
    (rollAttack s A T wid).1.damage =
      max 1 ((parseDice (rollDie s 20).1 (weaponDiceOf (jsWeaponArg wid))).2 +
          damageAbilityMod A (jsWeaponArg wid)) +
        (parseDice (parseDice (rollDie s 20).1 (weaponDiceOf (jsWeaponArg wid))).1
          (weaponDiceOf (jsWeaponArg wid))).2 ∧
    (1 ≤ (parseDice (rollDie s 20).1 (weaponDiceOf (jsWeaponArg wid))).2 +
        damageAbilityMod A (jsWeaponArg wid) →
      (rollAttack s A T wid).1.damage =
        (parseDice (rollDie s 20).1 (weaponDiceOf (jsWeaponArg wid))).2 +
          (parseDice (parseDice (rollDie s 20).1 (weaponDiceOf (jsWeaponArg wid))).1
            (weaponDiceOf (jsWeaponArg wid))).2 +
          damageAbilityMod A (jsWeaponArg wid)) := by
  simp only [rollAttack] at hhit ⊢
  split_ifs at hhit ⊢ with h1
  refine ⟨rfl, fun hge => ?_⟩
  dsimp only
  omega

/-- Witness for the amended C4: at generator state 421520601 the d20
shows a natural 20, the Strength-16 longsword attack hits, and the
damage is the two-roll formula. -/
theorem crit_damage_two_rolls_one_modifier_witness :
    (rollDie (421520601 : ℤ) 20).2 = 20 ∧
    (rollAttack (421520601 : ℤ) strikerC3 targetC3 (some "longsword")).1.hit = true ∧
    ((rollAttack (421520601 : ℤ) strikerC3 targetC3 (some "longsword")).1.damage =
      max 1 ((parseDice (rollDie (421520601 : ℤ) 20).1
          (weaponDiceOf (jsWeaponArg (some "longsword")))).2 +
          damageAbilityMod strikerC3 (jsWeaponArg (some "longsword"))) +
        (parseDice (parseDice (rollDie (421520601 : ℤ) 20).1
            (weaponDiceOf (jsWeaponArg (some "longsword")))).1
          (weaponDiceOf (jsWeaponArg (some "longsword")))).2 ∧
      (1 ≤ (parseDice (rollDie (421520601 : ℤ) 20).1
          (weaponDiceOf (jsWeaponArg (some "longsword")))).2 +
          damageAbilityMod strikerC3 (jsWeaponArg (some "longsword")) →
        (rollAttack (421520601 : ℤ) strikerC3 targetC3 (some "longsword")).1.damage =
          (parseDice (rollDie (421520601 : ℤ) 20).1
              (weaponDiceOf (jsWeaponArg (some "longsword")))).2 +
            (parseDice (parseDice (rollDie (421520601 : ℤ) 20).1
                (weaponDiceOf (jsWeaponArg (some "longsword")))).1
              (weaponDiceOf (jsWeaponArg (some "longsword")))).2 +
            damageAbilityMod strikerC3 (jsWeaponArg (some "longsword")))) :=
  ⟨by simp only [rollDie_fun]; decide,
   by simp only [rollAttack, parseDice, rollDice, rollDie_fun, nextInt_fun]; decide,
   crit_damage_two_rolls_one_modifier 421520601 strikerC3 targetC3 (some "longsword")
     (by simp only [rollDie_fun]; decide)
     (by simp only [rollAttack, parseDice, rollDice, rollDie_fun, nextInt_fun]; decide)⟩

/-- Attacker with Strength 1 (modifier −5) for the C4 counterexample. -/
def punyC4 : Character :=
  ⟨"puny", "Puny", 1, ⟨1, 10, 10, 10, 10, 10⟩, ⟨10, 10, 0⟩, 10, 30, [],
    ⟨0, 0⟩, .player, [], 0, false, false, false, 0⟩

/-- Target with armor class 10 for the C4 counterexample. -/
def victimC4 : Character :=
  ⟨"victim", "Victim", 1, ⟨10, 10, 10, 10, 10, 10⟩, ⟨10, 10, 0⟩, 10, 30, [],
    ⟨1, 0⟩, .enemy, [], 0, false, false, false, 0⟩

/-- C4 counterexample: at generator state 421520601 the d20 shows a
natural 20 and the unarmed attack (1d4 dice, Strength modifier −5) hits,
but the damage dealt is 4 = max 1 (3 − 5) + 3, not the claim's
3 + 3 + (−5) = 1. -/
theorem crit_damage_cx :
    (rollDie (421520601 : ℤ) 20).2 = 20 ∧
    (rollAttack (421520601 : ℤ) punyC4 victimC4 none).1.hit = true ∧
    (parseDice (rollDie (421520601 : ℤ) 20).1 (weaponDiceOf none)).2 = 3 ∧
    (parseDice (parseDice (rollDie (421520601 : ℤ) 20).1 (weaponDiceOf none)).1
      (weaponDiceOf none)).2 = 3 ∧
    damageAbilityMod punyC4 none = -5 ∧
    (rollAttack (421520601 : ℤ) punyC4 victimC4 none).1.damage = 4 ∧
    (4 : ℤ) ≠ 3 + 3 + -5 := by
  refine ⟨?_, ?_, ?_, ?_, ?_, ?_, ?_⟩ <;>
    (try simp only [rollAttack, parseDice, rollDice, rollDie_fun, nextInt_fun]) <;>
    decide

/-! ## Combat engine (combat/combatEngine together with its private
`CombatLogger`)

The engine's mutable pieces are gathered in one `Engine` record: the
`CombatState` it was handed, the logger's private entry list, the global
RNG seed, and an oracle for `Math.random()` draws (used only by the
spell-damage code of `processSpell`).  Every engine method becomes a
function `Engine → … → Engine` (plus the returned boolean where the
source returns one).

Log entries are embedded by their type tag, actor id, and the random
component of their id (`globalRNG.nextInt(1000, 9999)`, which advances
the shared RNG); timestamp and display message are presentation-only per
the spec and are dropped. -/

inductive Side where
  | players
  | enemies
deriving DecidableEq

structure LogEntry where
  ty : String
  characterId : String
  idNum : ℤ
deriving DecidableEq

/-- The `CombatState` fields the combat modules read or write.
`battlefield` is inlined as `width`, `height`, `obstacles`, `effects`. -/
structure CombatState where
  round : ℤ
  turn : ℤ
  characters : List Character
  initiativeOrder : List String
  currentCharacterId : String
  combatLog : List LogEntry
  width : ℤ
  height : ℤ
  obstacles : List Position
  effects : List (Position × ℤ)
  isActive : Bool
  victor : Option Side
deriving DecidableEq

structure Engine where
  cs : CombatState
  log : List LogEntry
  seed : ℤ
  mrand : List ℚ
deriving DecidableEq

/-- Source `getCharacterById`: `characters.find(c => c.id === id) || null`. -/
def findChar (l : List Character) (cid : String) : Option Character :=
  l.find? (fun c => c.id == cid)

/-- In-place mutation of the object `find` returned: replace the first
character with the given id. -/
def updateFirstChar (cid : String) (f : Character → Character) :
    List Character → List Character
  | [] => []
  | c :: rest =>
    if c.id == cid then f c :: rest else c :: updateFirstChar cid f rest

/-- Replace the character list inside the engine's combat state. -/
def setChars (E : Engine) (chars : List Character) : Engine :=
  { E with cs := { E.cs with characters := chars } }

/-- Source `CombatLogger.addEntry`: draw the random id component from the
global RNG, push the entry, trim per the retention policy. -/
def engineAddEntry (E : Engine) (ty cid : String) : Engine :=
  let r := nextInt E.seed 1000 9999
  { E with seed := r.1, log := addEntry E.log ⟨ty, cid, r.2⟩ }

def logTurnStart (E : Engine) (c : Character) : Engine := engineAddEntry E "turn" c.id

def logRoundStart (E : Engine) : Engine := engineAddEntry E "round" ""

def logMovement (E : Engine) (c : Character) : Engine := engineAddEntry E "move" c.id

def logAttack (E : Engine) (c : Character) : Engine := engineAddEntry E "attack" c.id

def logDamage (E : Engine) (c : Character) : Engine := engineAddEntry E "damage" c.id

def logDeath (E : Engine) (c : Character) : Engine := engineAddEntry E "status" c.id

/-- The id → level projection of the `SPELLS` table (data/spells); the
keys are the table's property names, `level` the stored spell level. -/
structure Spell where
  id : String
  name : String
  level : ℤ
deriving DecidableEq

def SPELLS : String → Option Spell
  | "firebolt" => some ⟨"firebolt", "Fire Bolt", 0⟩
  | "magicMissile" => some ⟨"magic_missile", "Magic Missile", 1⟩
  | "healingWord" => some ⟨"healing_word", "Healing Word", 1⟩
  | "cureWounds" => some ⟨"cure_wounds", "Cure Wounds", 1⟩
  | "shield" => some ⟨"shield", "Shield", 1⟩
  | "burningHands" => some ⟨"burning_hands", "Burning Hands", 1⟩
  | "holdPerson" => some ⟨"hold_person", "Hold Person", 2⟩
  | "fireball" => some ⟨"fireball", "Fireball", 3⟩
  | "lightningBolt" => some ⟨"lightning_bolt", "Lightning Bolt", 3⟩
  | "bless" => some ⟨"bless", "Bless", 1⟩
  | "spiritualWeapon" => some ⟨"spiritual_weapon", "Spiritual Weapon", 2⟩
  | "web" => some ⟨"web", "Web", 2⟩
  | "mistyStep" => some ⟨"misty_step", "Misty Step", 2⟩
  | "counterspell" => some ⟨"counterspell", "Counterspell", 3⟩
  | "haste" => some ⟨"haste", "Haste", 3⟩
  | _ => none

/-- Source `CombatLogger.logSpellCast` returns early (logging nothing) when the
spell id is not a key of `SPELLS`. -/
def logSpellCast (E : Engine) (c : Character) (sid : String) : Engine :=
  match SPELLS sid with
  | none => E
  | some _ => engineAddEntry E "spell" c.id

inductive ActionType where
  | move
  | attack
  | spell
  | dash
  | dodge
  | help
  | hide
  | ready
  | disengage
deriving DecidableEq

/-- Source `CombatAction.target`: a `Position` for movement or a character id
string for attacks and spells. -/
inductive TargetRef where
  | pos (p : Position)
  | id (s : String)
deriving DecidableEq

/-- The `CombatAction` fields the resolver reads.  The transient roll
results the resolver writes back for logging (`attackRoll`, `targetAC`,
`damage`) and the display-only `id`, `path`, `itemId`, `description`
are dropped. -/
structure CombatAction where
  type : ActionType
  characterId : String
  target : Option TargetRef
  spellId : Option String
  weaponId : Option String
deriving DecidableEq

/-- Next `Math.random()` draw from the oracle (a drained oracle yields
0, which never happens in the concrete runs below). -/
def popRand (E : Engine) : ℚ × Engine :=
  match E.mrand with
  | [] => (0, E)
  | q :: rest => (q, { E with mrand := rest })

/-- Source `processMovement`: fails unless the target is a concrete position
(JS: falsy target or a string target are rejected); applies the position
directly and accumulates `movementUsed` by Manhattan distance × 5. -/
def processMovement (E : Engine) (c : Character) (a : CombatAction) : Bool × Engine :=
  match a.target with
  | some (.pos p) =>
    let dist := |c.position.x - p.x| + |c.position.y - p.y|
    let E1 := setChars E (updateFirstChar c.id
      (fun ch => { ch with position := p, movementUsed := ch.movementUsed + dist * 5 })
      E.cs.characters)
    (true, logMovement E1 c)
  | _ => (false, E)

/-- Source `processAttack`: fails unless the target is a (non-empty, hence
truthy) character-id string naming an existing character; sets
`hasUsedAction`, rolls the attack, logs it, applies damage on a hit and
logs death on reaching exactly 0 HP. -/
def processAttack (E : Engine) (c : Character) (a : CombatAction) : Bool × Engine :=
  match a.target with
  | some (.id tid) =>
    if tid = "" then (false, E)
    else
      match findChar E.cs.characters tid with
      | none => (false, E)
      | some tgt =>
        let chars1 := updateFirstChar c.id (fun ch => { ch with hasUsedAction := true })
          E.cs.characters
        let ra := rollAttack E.seed c tgt a.weaponId
        let E1 := setChars { E with seed := ra.2 } chars1
        let E2 := logAttack E1 c
        if ra.1.hit then
          let newHp := max 0 (tgt.health.current - ra.1.damage)
          let E3 := setChars E2 (updateFirstChar tid
            (fun ch => { ch with health :=
              { ch.health with current := max 0 (ch.health.current - ra.1.damage) } })
            E2.cs.characters)
          let E4 := logDamage E3 tgt
          (true, if newHp = 0 then logDeath E4 tgt else E4)
        else (true, E2)
  | _ => (false, E)

/-- Source `processSpell` of src/src/game/combat/combatEngine.ts: fails only on
a falsy `spellId`; sets `hasUsedAction`, logs the cast (if the id is a
`SPELLS` key), and for the two hard-coded ids `magic_missile` /
`firebolt` applies `Math.random()`-based damage to the (optional)
target.  No spell-slot pool is ever touched. -/
def processSpell (E : Engine) (c : Character) (a : CombatAction) : Bool × Engine :=
  match a.spellId with
  | none => (false, E)
  | some sid =>
    if sid = "" then (false, E)
    else
      let E1 := setChars E (updateFirstChar c.id
        (fun ch => { ch with hasUsedAction := true }) E.cs.characters)
      let target : Option Character :=
        match a.target with
        | some (.id tid) => if tid = "" then none else findChar E1.cs.characters tid
        | _ => none
      let E2 := logSpellCast E1 c sid
      if sid = "magic_missile" then
        match target with
        | some tgt =>
          let pr := popRand E2
          let damage := 3 + ⌊pr.1 * 4⌋ + 1
          let newHp := max 0 (tgt.health.current - damage)
          let E3 := setChars pr.2 (updateFirstChar tgt.id
            (fun ch => { ch with health :=
              { ch.health with current := max 0 (ch.health.current - damage) } })
            pr.2.cs.characters)
          let E4 := logDamage E3 tgt
          (true, if newHp = 0 then logDeath E4 tgt else E4)
        | none => (true, E2)
      else if sid = "firebolt" then
        match target with
        | some tgt =>
          let pr := popRand E2
          let damage := ⌊pr.1 * 10⌋ + 1
          let newHp := max 0 (tgt.health.current - damage)
          let E3 := setChars pr.2 (updateFirstChar tgt.id
            (fun ch => { ch with health :=
              { ch.health with current := max 0 (ch.health.current - damage) } })
            pr.2.cs.characters)
          let E4 := logDamage E3 tgt
          (true, if newHp = 0 then logDeath E4 tgt else E4)
        | none => (true, E2)
      else (true, E2)

/-- Source `processDash`: sets `hasUsedAction` and doubles `speed` in place. -/
def processDash (E : Engine) (c : Character) : Bool × Engine :=
  (true, setChars E (updateFirstChar c.id
    (fun ch => { ch with hasUsedAction := true, speed := ch.speed * 2 })
    E.cs.characters))

/-- Source `processDodge`: sets `hasUsedAction` and appends the one-turn
dodge status effect (+2 AC). -/
def processDodge (E : Engine) (c : Character) : Bool × Engine :=
  (true, setChars E (updateFirstChar c.id
    (fun ch =>
      { ch with hasUsedAction := true, statusEffects := ch.statusEffects ++ [⟨"dodge", "Dodging", 1, 2⟩] })
    E.cs.characters))

/-- Source `processAction`: dispatch on the action type after resolving the
actor; unknown actor or unhandled action type fails. -/
def processAction (E : Engine) (a : CombatAction) : Bool × Engine :=
  match findChar E.cs.characters a.characterId with
  | none => (false, E)
  | some c =>
    match a.type with
    | .move => processMovement E c a
    | .attack => processAttack E c a
    | .spell => processSpell E c a
    | .dash => processDash E c
    | .dodge => processDodge E c
    | _ => (false, E)

/-- JS `Array.prototype.indexOf`: first index or −1. -/
def jsIndexOf (l : List String) (x : String) : ℤ :=
  match l with
  | [] => -1
  | y :: rest =>
    if y == x then 0
    else
      let r := jsIndexOf rest x
      if r = -1 then -1 else r + 1

/-- Source `endTurn`: reset the outgoing actor's per-turn flags, advance
`currentCharacterId` through `initiativeOrder` modulo its length,
increment `turn`, roll the round over (with a round-start log entry)
when the index wraps to 0, and log the incoming actor's turn start.
(An empty `initiativeOrder` makes the JS index arithmetic produce `NaN`;
that degenerate case is modeled as leaving the current id empty and
skipping the round rollover, and is not exercised by any claim.) -/
def endTurn (E : Engine) : Engine :=
  let E1 :=
    match findChar E.cs.characters E.cs.currentCharacterId with
    | some _ => setChars E (updateFirstChar E.cs.currentCharacterId
        (fun ch =>
          { ch with hasUsedAction := false, hasUsedBonusAction := false, hasUsedReaction := false, movementUsed := 0 })
        E.cs.characters)
    | none => E
  let len : ℤ := E1.cs.initiativeOrder.length
  let nextIndex := (jsIndexOf E1.cs.initiativeOrder E1.cs.currentCharacterId + 1).tmod len
  let E2 := { E1 with cs := { E1.cs with
    currentCharacterId := E1.cs.initiativeOrder.getD nextIndex.toNat "",
    turn := E1.cs.turn + 1 } }
  let E3 :=
    if 0 < len ∧ nextIndex = 0 then
      logRoundStart { E2 with cs := { E2.cs with round := E2.cs.round + 1 } }
    else E2
  match findChar E3.cs.characters E3.cs.currentCharacterId with
  | some c => logTurnStart E3 c
  | none => E3

/-- The initiative pass of `initializeCombat`: for each character in
order, `initiative = globalRNG.rollDie(20) + Math.floor((dex - 10)/2)`,
threading the seed. -/
def assignInitiative : ℤ → List Character → ℤ × List Character
  | s, [] => (s, [])
  | s, c :: rest =>
    let dexMod := (c.stats.dexterity - 10) / 2
    let r := rollDie s 20
    let res := assignInitiative r.1 rest
    (res.1, { c with initiative := r.2 + dexMod } :: res.2)

/-- Comparator of `initializeCombat`'s sort:
`(a, b) => b.initiative - a.initiative`, i.e. `a` may stay before `b`
exactly when `b.initiative ≤ a.initiative`. -/
def initiativeGE (a b : Character) : Prop := b.initiative ≤ a.initiative

instance : DecidableRel initiativeGE := fun a b => Int.decLe b.initiative a.initiative

instance : IsTotal Character initiativeGE := ⟨fun a b => le_total b.initiative a.initiative⟩

instance : IsTrans Character initiativeGE := ⟨fun _ _ _ h1 h2 => le_trans h2 h1⟩

/-- Source `initializeCombat`: assign initiatives, sort `characters` in place
(descending initiative; `Array.prototype.sort` is stable, and a stable
sort under a total preorder is unique, so the structural
`List.insertionSort` used here produces the same list), derive
`initiativeOrder`, point `currentCharacterId` at the first entry, clear
`combatLog`, and log the round and first turn.  (On an empty roster the
source dereferences `null` after the state writes; the embedding skips
the impossible log call.) -/
def initializeCombat (E : Engine) : Engine :=
  let ar := assignInitiative E.seed E.cs.characters
  let sorted := List.insertionSort initiativeGE ar.2
  let order := sorted.map (fun c => c.id)
  let E1 := { E with seed := ar.1, cs := { E.cs with
    characters := sorted, initiativeOrder := order,
    currentCharacterId := order.getD 0 "", combatLog := [] } }
  let E2 := logRoundStart E1
  match findChar E2.cs.characters E2.cs.currentCharacterId with
  | some c => logTurnStart E2 c
  | none => E2

/-! ## The repository's second combat-engine variant

The repository also contains a second `CombatEngine` source (an unnamed
file) that is identical to combat/combatEngine except that its
`processSpell` has no damage code and instead consumes a spell slot:
it looks the spell up in `SPELLS`, and if the spell exists with
`level > 0` and the caster's matching slot pool has `current > 0`, it
decrements that pool by one.  Only `processSpell` differs, so only it
(and the dispatch around it) is embedded separately, as `Engine2`. -/

/-- Source `character.resources.spellSlots[level]` on the association list. -/
def lookupSlot : List (ℤ × Pool) → ℤ → Option Pool
  | [], _ => none
  | (k, p) :: rest, lvl => if k = lvl then some p else lookupSlot rest lvl

/-- Source `spellSlots.current--` on the pool stored at the given level (keys
are unique, the first match is the record entry). -/
def decrementSlot : List (ℤ × Pool) → ℤ → List (ℤ × Pool)
  | [], _ => []
  | (k, p) :: rest, lvl =>
    if k = lvl then (k, { p with current := p.current - 1 }) :: rest
    else (k, p) :: decrementSlot rest lvl

namespace Engine2

/-- Source `processSpell` of the second engine variant: falsy `spellId` fails;
otherwise set `hasUsedAction`, resolve the optional target, log the cast,
and consume one slot from the pool matching the spell's level when the
spell exists, has level > 0, and a slot is available. -/
def processSpell (E : Engine) (c : Character) (a : CombatAction) : Bool × Engine :=
  match a.spellId with
  | none => (false, E)
  | some sid =>
    if sid = "" then (false, E)
    else
      let E1 := setChars E (updateFirstChar c.id
        (fun ch => { ch with hasUsedAction := true }) E.cs.characters)
      let E2 := logSpellCast E1 c sid
      match SPELLS sid with
      | some sp =>
        if 0 < sp.level then
          match lookupSlot c.spellSlots sp.level with
          | some pool =>
            if 0 < pool.current then
              (true, setChars E2 (updateFirstChar c.id
                (fun ch => { ch with spellSlots := decrementSlot ch.spellSlots sp.level })
                E2.cs.characters))
            else (true, E2)
          | none => (true, E2)
        else (true, E2)
      | none => (true, E2)

/-- Source `processAction` of the second engine variant (same dispatch; only
the spell branch differs). -/
def processAction (E : Engine) (a : CombatAction) : Bool × Engine :=
  match findChar E.cs.characters a.characterId with
  | none => (false, E)
  | some c =>
    match a.type with
    | .move => processMovement E c a
    | .attack => processAttack E c a
    | .spell => Engine2.processSpell E c a
    | .dash => processDash E c
    | .dodge => processDodge E c
    | _ => (false, E)

end Engine2

/-- Source `processMovement` succeeds exactly on a position target. -/
theorem processMovement_fst_true (E : Engine) (c : Character) (a : CombatAction)
    (p : Position) (htgt : a.target = some (.pos p)) :
    (processMovement E c a).1 = true := by
  unfold processMovement
  rw [htgt]

/-- Source `processAttack` succeeds once the target id is a non-empty string
naming an existing character. -/
theorem processAttack_fst_true (E : Engine) (c : Character) (a : CombatAction)
    (t : String) (htgt : a.target = some (.id t)) (hne : ¬t = "")
    (tgt : Character) (hfind : findChar E.cs.characters t = some tgt) :
    (processAttack E c a).1 = true := by
  unfold processAttack
  rw [htgt]
  simp only [if_neg hne, hfind]
  split <;> rfl

/-- Source `processSpell` succeeds once `spellId` is a non-empty string. -/
theorem processSpell_fst_true (E : Engine) (c : Character) (a : CombatAction)
    (sid : String) (hsid : a.spellId = some sid) (hne : ¬sid = "") :
    (processSpell E c a).1 = true := by
  unfold processSpell
  rw [hsid]
  simp only [if_neg hne]
  split
  · split <;> rfl
  · split
    · split <;> rfl
    · rfl

/-- C6: whenever `processAction` returns `false` — nonexistent actor id,
wrong target shape, missing required field, or an unhandled action
type — the engine state is unchanged in every component: all character
fields, the battlefield and scheduler fields, the combat log, the
logger's log, the RNG seed and the entropy oracle. -/
theorem processAction_failure_no_mutation (E : Engine) (a : CombatAction)
    (h : (processAction E a).1 = false) : (processAction E a).2 = E := by
  obtain ⟨ty, cid, tgt, sid, wid⟩ := a
  unfold processAction at h ⊢
  cases hfind : findChar E.cs.characters cid with
  | none => simp only [hfind]
  | some c =>
    simp only [hfind] at h ⊢
    cases ty
    case move =>
      rcases tgt with _ | p | t
      · rfl
      · exact absurd (h.symm.trans
          (processMovement_fst_true E c ⟨.move, cid, some (.pos p), sid, wid⟩ p rfl))
          (by simp)
      · rfl
    case attack =>
      rcases tgt with _ | p | t
      · rfl
      · rfl
      · by_cases ht : t = ""
        · unfold processAttack
          subst ht
          rfl
        · cases hft : findChar E.cs.characters t with
          | none =>
            unfold processAttack
            simp only [if_neg ht, hft]
          | some tgtc =>
            exact absurd (h.symm.trans
              (processAttack_fst_true E c ⟨.attack, cid, some (.id t), sid, wid⟩ t rfl ht
                tgtc hft)) (by simp)
    case spell =>
      rcases sid with _ | s
      · rfl
      · by_cases hs : s = ""
        · unfold processSpell
          subst hs
          rfl
        · exact absurd (h.symm.trans
            (processSpell_fst_true E c ⟨.spell, cid, tgt, some s, wid⟩ s rfl hs)) (by simp)
    case dash => exact absurd h (by simp [processDash])
    case dodge => exact absurd h (by simp [processDodge])
    case help => rfl
    case hide => rfl
    case ready => rfl
    case disengage => rfl

/-- Witness for C6: an action naming a nonexistent actor fails and
leaves a concrete engine untouched. -/
theorem processAction_failure_no_mutation_witness :
    ((processAction ⟨⟨1, 0, [], [], "", [], 10, 10, [], [], true, none⟩, [], 42, []⟩
        ⟨.dash, "ghost", none, none, none⟩).1 = false) ∧
    (processAction ⟨⟨1, 0, [], [], "", [], 10, 10, [], [], true, none⟩, [], 42, []⟩
        ⟨.dash, "ghost", none, none, none⟩).2 =
      ⟨⟨1, 0, [], [], "", [], 10, 10, [], [], true, none⟩, [], 42, []⟩ :=
  ⟨rfl, processAction_failure_no_mutation _ _ rfl⟩

/-! ## C5: Dash's speed doubling is never reverted -/

/-- A level-1 character with base speed 30. -/
def dashChar : Character :=
  ⟨"a", "Runner", 1, ⟨10, 10, 10, 10, 10, 10⟩, ⟨10, 10, 0⟩, 10, 30, [],
    ⟨0, 0⟩, .player, [], 0, false, false, false, 0⟩

def dashEngine : Engine :=
  ⟨⟨1, 0, [dashChar], ["a"], "a", [], 10, 10, [], [], true, none⟩, [], 42, []⟩

def dashAction : CombatAction := ⟨.dash, "a", none, none, none⟩

/-- C5 (code bug): `processDash` doubles `speed` in place and `endTurn`
resets only `hasUsedAction`/`hasUsedBonusAction`/`hasUsedReaction`/
`movementUsed`, never `speed`.  Concretely: a speed-30 character Dashes,
the turn ends, and at the start of its next turn (it is again the
current character) its speed is 60, not the pre-Dash 30 the spec's
invariant requires — and a second Dash would compound it to 120. -/
theorem dash_speed_not_reverted_cx :
    dashChar.speed = 30 ∧
    (processAction dashEngine dashAction).1 = true ∧
    (endTurn (processAction dashEngine dashAction).2).cs.currentCharacterId = "a" ∧
    (findChar (endTurn (processAction dashEngine dashAction).2).cs.characters "a").map
      (fun c => c.speed) = some 60 ∧
    (60 : ℤ) ≠ 30 := by
  refine ⟨rfl, rfl, ?_, ?_, by decide⟩ <;> decide

/-! ## C2: spell-slot consumption -/

/-- Source `engineAddEntry` touches only the logger log and the RNG seed. -/
theorem logSpellCast_characters (E : Engine) (c : Character) (sid : String) :
    (logSpellCast E c sid).cs.characters = E.cs.characters := by
  unfold logSpellCast engineAddEntry
  split <;> rfl

/-- Finding the updated id after an in-place mutation that keeps ids. -/
theorem findChar_updateFirstChar (l : List Character) (cid : String)
    (f : Character → Character) (hid : ∀ ch, (f ch).id = ch.id) :
    findChar (updateFirstChar cid f l) cid = (findChar l cid).map f := by
  induction l with
  | nil => rfl
  | cons c rest ih =>
    unfold updateFirstChar findChar
    by_cases hc : (c.id == cid) = true
    · simp only [hc, if_pos]
      have : ((f c).id == cid) = true := by rw [hid c]; exact hc
      simp [List.find?, this, hc]
    · simp only [hc, if_neg, Bool.not_eq_true]
      simp only [List.find?, hc]
      simpa [List.find?] using ih

/-- Looking up the level after the decrement. -/
theorem lookupSlot_decrementSlot (l : List (ℤ × Pool)) (lvl : ℤ) (p : Pool)
    (h : lookupSlot l lvl = some p) :
    lookupSlot (decrementSlot l lvl) lvl = some ⟨p.current - 1, p.maximum⟩ := by
  induction l with
  | nil => simp [lookupSlot] at h
  | cons kp rest ih =>
    obtain ⟨k, q⟩ := kp
    by_cases hk : k = lvl
    · subst hk
      simp [lookupSlot] at h
      subst h
      simp [decrementSlot, lookupSlot]
    · simp [lookupSlot, hk] at h
      simp [decrementSlot, hk, lookupSlot]
      exact ih h

/-- C2 amended, positive half (second engine variant, the file whose
`processSpell` matches the spec): a spell action carrying a valid spell
id whose spell has level > 0, cast by a character whose matching
spell-level pool has a slot available, succeeds and decrements exactly
that pool's `current` by one. -/
theorem processSpell_consumes_slot (E : Engine) (a : CombatAction) (c : Character)
    (sid : String) (sp : Spell) (pool : Pool)
    (hfind : findChar E.cs.characters a.characterId = some c)
    (htype : a.type = .spell)
    (hsid : a.spellId = some sid) (hne : ¬sid = "")
    (hsp : SPELLS sid = some sp) (hlvl : 0 < sp.level)
    (hpool : lookupSlot c.spellSlots sp.level = some pool)
    (hcur : 0 < pool.current) :
    (Engine2.processAction E a).1 = true ∧
    ∃ c', findChar (Engine2.processAction E a).2.cs.characters a.characterId = some c' ∧
      lookupSlot c'.spellSlots sp.level = some ⟨pool.current - 1, pool.maximum⟩ := by
  have hcid : c.id = a.characterId := by
    have := List.find?_some hfind
    simpa using this
  unfold Engine2.processAction
  simp only [hfind, htype]
  unfold Engine2.processSpell
  simp only [hsid, if_neg hne, hsp, if_pos hlvl, hpool, if_pos hcur]
  refine ⟨trivial, ?_⟩
  refine ⟨{ ({ c with hasUsedAction := true }) with
    spellSlots := decrementSlot ({ c with hasUsedAction := true }).spellSlots sp.level },
    ?_, ?_⟩
  · rw [show (setChars (logSpellCast (setChars E (updateFirstChar c.id
        (fun ch => { ch with hasUsedAction := true }) E.cs.characters)) c sid)
        (updateFirstChar c.id
          (fun ch => { ch with spellSlots := decrementSlot ch.spellSlots sp.level })
          (logSpellCast (setChars E (updateFirstChar c.id
            (fun ch => { ch with hasUsedAction := true }) E.cs.characters)) c sid).cs.characters)).cs.characters =
      updateFirstChar c.id
        (fun ch => { ch with spellSlots := decrementSlot ch.spellSlots sp.level })
        (logSpellCast (setChars E (updateFirstChar c.id
          (fun ch => { ch with hasUsedAction := true }) E.cs.characters)) c sid).cs.characters
      from rfl, logSpellCast_characters]
    rw [show (setChars E (updateFirstChar c.id
        (fun ch => { ch with hasUsedAction := true }) E.cs.characters)).cs.characters =
      updateFirstChar c.id
        (fun ch => { ch with hasUsedAction := true }) E.cs.characters from rfl]
    rw [← hcid] at hfind ⊢
    rw [findChar_updateFirstChar _ _
        (fun ch => { ch with spellSlots := decrementSlot ch.spellSlots sp.level })
        (fun ch => rfl),
      findChar_updateFirstChar _ _
        (fun ch => { ch with hasUsedAction := true }) (fun ch => rfl),
      hfind]
    rfl
  · exact lookupSlot_decrementSlot _ _ _ hpool

/-- Caster with two available level-1 slots. -/
def casterC2 : Character :=
  ⟨"caster", "Caster", 3, ⟨10, 10, 10, 16, 10, 10⟩, ⟨10, 10, 0⟩, 12, 30,
    [(1, ⟨2, 3⟩)], ⟨0, 0⟩, .player, [], 0, false, false, false, 0⟩

def engineC2 : Engine :=
  ⟨⟨1, 0, [casterC2], ["caster"], "caster", [], 10, 10, [], [], true, none⟩, [], 42, []⟩

/-- A spell action carrying the valid level-1 spell key `magicMissile`. -/
def spellActionC2 : CombatAction := ⟨.spell, "caster", none, some "magicMissile", none⟩

/-- Witness for the amended C2 at the concrete caster/action above:
the second engine variant leaves the pool at 1 of 3. -/
theorem processSpell_consumes_slot_witness :
    (Engine2.processAction engineC2 spellActionC2).1 = true ∧
    ∃ c', findChar (Engine2.processAction engineC2 spellActionC2).2.cs.characters
        "caster" = some c' ∧
      lookupSlot c'.spellSlots 1 = some ⟨1, 3⟩ :=
  processSpell_consumes_slot engineC2 spellActionC2 casterC2 "magicMissile"
    ⟨"magic_missile", "Magic Missile", 1⟩ ⟨2, 3⟩ rfl rfl rfl (by decide) rfl
    (by decide) rfl (by decide)

/-- C2 counterexample: the cited `processSpell` of
src/src/game/combat/combatEngine.ts never touches spell slots: the same
valid level-1 cast (`magicMissile`, 2 slots available) succeeds and
leaves the pool at 2 of 3, not 1 of 3. -/
theorem processSpell_no_slot_consumed_cx :
    (SPELLS "magicMissile").map (fun sp => sp.level) = some 1 ∧
    lookupSlot casterC2.spellSlots 1 = some ⟨2, 3⟩ ∧
    (processAction engineC2 spellActionC2).1 = true ∧
    (findChar (processAction engineC2 spellActionC2).2.cs.characters "caster").map
      (fun c => lookupSlot c.spellSlots 1) = some (some ⟨2, 3⟩) ∧
    some (some (⟨2, 3⟩ : Pool)) ≠ some (some (⟨1, 3⟩ : Pool)) := by
  refine ⟨rfl, rfl, rfl, ?_, by decide⟩
  decide

/-! ## C10: `initializeCombat` reorders the characters array itself -/

/-- Fields of the state after `initializeCombat`: the characters array
is the initiative-sorted permutation, `initiativeOrder` is its id
projection, and `combatLog` is reset. -/
theorem initializeCombat_state (E : Engine) :
    (initializeCombat E).cs.characters =
      List.insertionSort initiativeGE (assignInitiative E.seed E.cs.characters).2 ∧
    (initializeCombat E).cs.initiativeOrder =
      (initializeCombat E).cs.characters.map (fun c => c.id) ∧
    (initializeCombat E).cs.combatLog = [] := by
  unfold initializeCombat
  dsimp only
  refine ⟨?_, ?_, ?_⟩ <;> split <;> rfl

/-- Character with Dexterity 10 (initiative = d20). -/
def alphaChar : Character :=
  ⟨"alpha", "Alpha", 1, ⟨10, 10, 10, 10, 10, 10⟩, ⟨10, 10, 0⟩, 12, 30, [],
    ⟨0, 0⟩, .player, [], 0, false, false, false, 0⟩

/-- Character with Dexterity 50 (initiative = d20 + 20, always larger
than any d20 alone). -/
def betaChar : Character :=
  ⟨"beta", "Beta", 1, ⟨10, 50, 10, 10, 10, 10⟩, ⟨10, 10, 0⟩, 12, 30, [],
    ⟨1, 0⟩, .enemy, [], 0, false, false, false, 0⟩

def demoEngine : Engine :=
  ⟨⟨1, 0, [alphaChar, betaChar], [], "", [], 10, 10, [], [], true, none⟩, [], 7, []⟩

/-- C10: `initializeCombat` reorders the `characters` array itself into
descending-initiative order — afterwards `initiativeOrder` is exactly
the id projection of `characters` (so `characters[i].id =
initiativeOrder[i]` for every index), the array is sorted by descending
initiative, and `combatLog` is reset to `[]`; and the caller's original
ordering is not preserved, as the concrete two-character roster shows
(`["alpha", "beta"]` becomes `["beta", "alpha"]`). -/
theorem initializeCombat_sorts_in_place :
    (∀ E : Engine,
      (initializeCombat E).cs.initiativeOrder =
        (initializeCombat E).cs.characters.map (fun c => c.id) ∧
      (initializeCombat E).cs.combatLog = [] ∧
      (initializeCombat E).cs.characters.Sorted initiativeGE) ∧
    ((initializeCombat demoEngine).cs.characters.map (fun c => c.id) = ["beta", "alpha"] ∧
      demoEngine.cs.characters.map (fun c => c.id) = ["alpha", "beta"]) := by
  constructor
  · intro E
    obtain ⟨hchars, horder, hlog⟩ := initializeCombat_state E
    refine ⟨horder, hlog, ?_⟩
    rw [hchars]
    exact List.sorted_insertionSort initiativeGE _
  · constructor
    · rw [(initializeCombat_state demoEngine).1]
      simp only [demoEngine, assignInitiative, rollDie_fun]
      decide
    · rfl

/-! ## Grid & pathfinding (combat/pathfinding module)

The A* loop is embedded with explicit fuel.  Each loop iteration pops
one node and closes its position; a position, once closed, is never
added to the open set again, and the open set holds at most one node
per position, so the loop runs at most `width * height + 1` iterations
(the start node may lie outside the grid) before the open set empties.
The fuel `width * height + 1` therefore never runs out before the
source's `while` loop would have terminated on its own. -/

/-- Source `calculateDistance`: Manhattan distance. -/
def calculateDistance (a b : Position) : ℤ := |a.x - b.x| + |a.y - b.y|

/-- The eight neighbor directions, in the source's push order. -/
def directions : List (ℤ × ℤ) :=
  [(0, -1), (1, 0), (0, 1), (-1, 0), (-1, -1), (1, -1), (-1, 1), (1, 1)]

/-- Source `getNeighbors`: the in-bounds cells among the eight neighbors. -/
def getNeighbors (p : Position) (width height : ℤ) : List Position :=
  directions.filterMap (fun d =>
    let np : Position := ⟨p.x + d.1, p.y + d.2⟩
    if 0 ≤ np.x ∧ np.x < width ∧ 0 ≤ np.y ∧ np.y < height then some np else none)

/-- Source `isPositionBlocked`: an obstacle cell, or the position of a living
character other than the excluded one. -/
def isPositionBlocked (p : Position) (st : CombatState) (exclude : Option String) : Bool :=
  st.obstacles.any (fun o => decide (o = p)) ||
  st.characters.any (fun ch =>
    (match exclude with
     | some e => !(ch.id == e)
     | none => true) &&
    decide (ch.position = p) && decide (0 < ch.health.current))

/-- A search node: position, costs, and the parent pointer used to
reconstruct the path. -/
inductive PathNode where
  | mk (position : Position) (gCost hCost fCost : ℤ) (parent : Option PathNode)

def PathNode.position : PathNode → Position
  | .mk p _ _ _ _ => p

def PathNode.gCost : PathNode → ℤ
  | .mk _ g _ _ _ => g

def PathNode.hCost : PathNode → ℤ
  | .mk _ _ h _ _ => h

def PathNode.fCost : PathNode → ℤ
  | .mk _ _ _ f _ => f

/-- Path reconstruction: follow parents back to the start, then read
the cells front to back (the source's `unshift` loop). -/
def PathNode.path : PathNode → List Position
  | .mk p _ _ _ none => [p]
  | .mk p _ _ _ (some par) => par.path ++ [p]

/-- The neighbor-expansion loop body of `findPath`: skip closed cells
and blocked cells (except the target); then either improve the existing
open node (in place, keeping its list position) when the new path is
strictly cheaper, or append a fresh node. -/
def expandNeighbors (current : PathNode) (endP : Position) (st : CombatState)
    (exclude : Option String) (closed : List Position) (openSet : List PathNode) :
    List PathNode :=
  (getNeighbors current.position st.width st.height).foldl
    (fun acc np =>
      if np ∈ closed then acc
      else if isPositionBlocked np st exclude && !decide (np = endP) then acc
      else
        let tentative := current.gCost + 1
        match acc.find? (fun n => decide (n.position = np)) with
        | some existing =>
          if existing.gCost ≤ tentative then acc
          else
            acc.map (fun n =>
              if n.position = np then
                PathNode.mk np tentative n.hCost (tentative + n.hCost) (some current)
              else n)
        | none =>
          let h := calculateDistance np endP
          acc ++ [PathNode.mk np tentative h (tentative + h) (some current)])
    openSet

/-- One `while` iteration of `findPath`: stable-sort the open set by
`fCost` (`Array.prototype.sort` is stable; `List.insertionSort` is the
same stable sort), shift the head, close it, return its path if it is
the target, else expand its neighbors. -/
def findPathLoop (endP : Position) (st : CombatState) (exclude : Option String) :
    ℕ → List PathNode → List Position → Option (List Position)
  | 0, _, _ => none
  | fuel + 1, openSet, closed =>
    match List.insertionSort (fun a b : PathNode => a.fCost ≤ b.fCost) openSet with
    | [] => none
    | current :: rest =>
      let closed1 := closed ++ [current.position]
      if current.position = endP then some current.path
      else
        findPathLoop endP st exclude fuel
          (expandNeighbors current endP st exclude closed1 rest) closed1

/-- Source `findPath`: A* with `g` = steps, `h` = Manhattan distance. -/
def findPath (start endP : Position) (st : CombatState) (exclude : Option String) :
    Option (List Position) :=
  let h := calculateDistance start endP
  let startNode := PathNode.mk start 0 h (0 + h) none
  findPathLoop endP st exclude ((st.width * st.height).toNat + 1) [startNode] []

/-- A battlefield with no obstacles and no characters. -/
def emptyState (w h : ℤ) : CombatState :=
  ⟨1, 0, [], [], "", [], w, h, [], [], true, none⟩

/-- Chebyshev distance: the true step count of a shortest 8-direction
path. -/
def chebyshev (a b : Position) : ℤ := max |a.x - b.x| |a.y - b.y|

/-- C7 counterexample: on an empty 2×2 board the path from (0,0) to
(1,1) is a single diagonal step — 2 cells distant in the Manhattan
metric but 1 step long, because `getNeighbors` offers all 8 directions
at unit cost. -/
theorem findPath_diagonal_beats_manhattan_cx :
    findPath ⟨0, 0⟩ ⟨1, 1⟩ (emptyState 2 2) none = some [⟨0, 0⟩, ⟨1, 1⟩] ∧
    calculateDistance ⟨0, 0⟩ ⟨1, 1⟩ = 2 ∧
    (findPath ⟨0, 0⟩ ⟨1, 1⟩ (emptyState 2 2) none).map
      (fun l => (l.length : ℤ) - 1) = some 1 ∧
    (1 : ℤ) ≠ 2 := by
  refine ⟨?_, rfl, ?_, by decide⟩ <;> decide

/-- The in-bounds cells of a `w × h` board. -/
def allCells (w h : ℤ) : List Position :=
  (List.range w.toNat).flatMap (fun x => (List.range h.toNat).map (fun y => ⟨x, y⟩))

/-- One instance of the amended C7 property: the path exists, runs from
`a` to `b`, and its step count is the Chebyshev distance. -/
def pairCheck (w h : ℤ) (a b : Position) : Bool :=
  match findPath a b (emptyState w h) none with
  | some l => decide (l.head? = some a) && decide (l.getLast? = some b) &&
      decide ((l.length : ℤ) - 1 = chebyshev a b)
  | none => false

/-- The amended C7 property over every ordered pair of distinct cells of
one board. -/
def checkBoard (w h : ℤ) : Bool :=
  (allCells w h).all (fun a => (allCells w h).all (fun b =>
    decide (a = b) || pairCheck w h a b))

set_option maxHeartbeats 4000000 in
/-- Exhaustive check of the amended C7 over all boards up to 4×4. -/
theorem checkBoards_small :
    ((List.range 4).all fun wi => (List.range 4).all fun hi =>
      checkBoard ((wi : ℤ) + 1) ((hi : ℤ) + 1)) = true := by decide

/-- C7 amended: on an obstacle-free battlefield with no other living
characters, `findPath` between two distinct in-bounds cells returns a
non-null sequence from `a` to `b` whose length in steps equals the
Chebyshev distance `max |dx| |dy|` — not the Manhattan distance
`|dx| + |dy|`, which it undercuts whenever `a` and `b` share neither row
nor column (neighbor expansion offers diagonal steps at unit cost).
Verified exhaustively for every board size up to 4×4. -/
theorem findPath_open_board_chebyshev (w h : ℤ) (hw : 1 ≤ w) (hw4 : w ≤ 4)
    (hh : 1 ≤ h) (hh4 : h ≤ 4) (a b : Position)
    (ha : a ∈ allCells w h) (hb : b ∈ allCells w h) (hab : a ≠ b) :
    ∃ l, findPath a b (emptyState w h) none = some l ∧
      l.head? = some a ∧ l.getLast? = some b ∧
      (l.length : ℤ) - 1 = chebyshev a b := by
  have hcb : checkBoard w h = true := by
    have h1 := checkBoards_small
    rw [List.all_eq_true] at h1
    have h2 := h1 (w.toNat - 1) (by rw [List.mem_range]; omega)
    rw [List.all_eq_true] at h2
    have h3 := h2 (h.toNat - 1) (by rw [List.mem_range]; omega)
    have hw' : ((w.toNat - 1 : ℕ) : ℤ) + 1 = w := by omega
    have hh' : ((h.toNat - 1 : ℕ) : ℤ) + 1 = h := by omega
    rw [hw', hh'] at h3
    exact h3
  unfold checkBoard at hcb
  rw [List.all_eq_true] at hcb
  have hrow := hcb a ha
  rw [List.all_eq_true] at hrow
  have hp := hrow b hb
  rw [Bool.or_eq_true, decide_eq_true_eq] at hp
  rcases hp with heq | hpc
  · exact absurd heq hab
  · unfold pairCheck at hpc
    cases hfp : findPath a b (emptyState w h) none with
    | none => rw [hfp] at hpc; exact absurd hpc (by simp)
    | some l =>
      rw [hfp] at hpc
      simp only [Bool.and_eq_true, decide_eq_true_eq] at hpc
      exact ⟨l, rfl, hpc.1.1, hpc.1.2, hpc.2⟩

/-- Witness for the amended C7: the 4×4 board, from (0,0) to (3,1). -/
theorem findPath_open_board_chebyshev_witness :
    (1 : ℤ) ≤ 4 ∧ (⟨0, 0⟩ : Position) ∈ allCells 4 4 ∧
      (⟨3, 1⟩ : Position) ∈ allCells 4 4 ∧
      (⟨0, 0⟩ : Position) ≠ (⟨3, 1⟩ : Position) ∧
      (∃ l, findPath ⟨0, 0⟩ ⟨3, 1⟩ (emptyState 4 4) none = some l ∧
        l.head? = some ⟨0, 0⟩ ∧ l.getLast? = some ⟨3, 1⟩ ∧
        (l.length : ℤ) - 1 = chebyshev ⟨0, 0⟩ ⟨3, 1⟩) :=
  ⟨by decide, by decide, by decide, by decide,
    findPath_open_board_chebyshev 4 4 (by decide) (by decide) (by decide) (by decide)
      ⟨0, 0⟩ ⟨3, 1⟩ (by decide) (by decide) (by decide)⟩

end DnD
